import Mathlib

/-!
Shallow embedding of the model hierarchy of `Shelegia_Motta_2021/Models.py`
(Shelegia & Motta 2021 "kill zone" models): parameters, threshold engines,
payoff tables and the piecewise decision functions of the base model and the
bargaining-power, unobservable and acquisition variants.  Python floats are
modelled as rationals; the discrete outputs become inductive types.
-/

namespace ShelegiaMotta

/-- Choices of the entrant (`IModel.ENTRANT_CHOICES`). -/
inductive Entrant where
  | complement
  | substitute
  | indifferent
deriving DecidableEq

/-- Choices of the incumbent (`IModel.INCUMBENT_CHOICES`). -/
inductive Incumbent where
  | copy
  | refrain
deriving DecidableEq

/-- Outcomes of the development (`IModel.DEVELOPMENT_OUTCOME`). -/
inductive Development where
  | success
  | failure
deriving DecidableEq

/-- Outcomes of an acquisition (`AcquisitionModel.ACQUISITION_OUTCOME`). -/
inductive Acquisition where
  | merged
  | apart
deriving DecidableEq

/-- The result dictionary of `get_optimal_choice` in the non-acquisition models. -/
structure Choice where
  entrant : Entrant
  incumbent : Incumbent
  development : Development
deriving DecidableEq

/-- The result dictionary of `AcquisitionModel.get_optimal_choice`. -/
structure AcqChoice where
  entrant : Entrant
  incumbent : Incumbent
  development : Development
  acquisition : Acquisition
deriving DecidableEq

/-- The five scalar parameters of `BaseModel.__init__`. -/
structure Params where
  u : ℚ
  B : ℚ
  small_delta : ℚ
  delta : ℚ
  K : ℚ
deriving DecidableEq

/-- Parameters of `BargainingPowerModel.__init__` (base parameters plus `beta`). -/
structure BParams extends Params where
  beta : ℚ
deriving DecidableEq

/-- Default parameter values `u=1, B=0.5, small_delta=0.5, delta=0.51, K=0.2`. -/
def defaultParams : Params := ⟨1, 1/2, 1/2, 51/100, 1/5⟩

/-- Default parameter values including `beta=0.5`. -/
def defaultBParams : BParams := ⟨defaultParams, 1/2⟩

/-- The thresholds for the fixed costs of copying
(keys `F(YY)s`, `F(YN)s`, `F(YY)c`, `F(YN)c`). -/
structure CopyingFixedCosts where
  FYYs : ℚ
  FYNs : ℚ
  FYYc : ℚ
  FYNc : ℚ
deriving DecidableEq

/-- The thresholds for the assets of the entrant
(keys `A_s`, `A_c`, `A-s`, `A-c`; the overlined keys are `Abar_`). -/
structure Assets where
  A_s : ℚ
  A_c : ℚ
  Abar_s : ℚ
  Abar_c : ℚ
deriving DecidableEq

/-- One row of the payoff table: `pi(I)`, `pi(E)`, `CS`, `W`. -/
structure Payoff where
  piI : ℚ
  piE : ℚ
  CS : ℚ
  W : ℚ
deriving DecidableEq

/-- The six market configurations keying the payoff table. -/
inductive MarketConfig where
  | basic
  | IC
  | EP
  | ICEP
  | EC
  | ICEC
deriving DecidableEq

namespace BaseModel

/-- `BaseModel.TOLERANCE = 10 ** (-10)`. -/
def TOLERANCE : ℚ := 1 / 10 ^ 10

/-- The assertions of `BaseModel.__init__`:
(A1b) `small_delta / 2 < delta < 3 * small_delta / 2` and (A2) `K < small_delta / 2`. -/
def valid (p : Params) : Prop :=
  p.small_delta / 2 < p.delta ∧ p.delta < 3 * p.small_delta / 2 ∧ p.K < p.small_delta / 2

instance (p : Params) : Decidable (valid p) := by
  unfold valid
  infer_instance

/-- `BaseModel._calculate_payoffs`. -/
def calculate_payoffs (p : Params) : MarketConfig → Payoff
  | .basic => ⟨p.u + p.small_delta / 2, p.small_delta / 2, 0, p.u + p.small_delta⟩
  | .IC => ⟨p.u + p.small_delta, 0, 0, p.u + p.small_delta⟩
  | .EP => ⟨0, p.delta + p.small_delta, p.u, p.u + p.delta + p.small_delta⟩
  | .ICEP => ⟨0, p.delta, p.u + p.small_delta, p.u + p.delta + p.small_delta⟩
  | .EC => ⟨p.u + p.small_delta, p.small_delta, 0, p.u + 2 * p.small_delta⟩
  | .ICEC => ⟨p.u + 3 / 2 * p.small_delta, p.small_delta / 2, 0, p.u + 2 * p.small_delta⟩

/-- `BaseModel._calculate_copying_fixed_costs_values`. -/
def calculate_copying_fixed_costs_values (p : Params) : CopyingFixedCosts :=
  ⟨p.small_delta / 2, p.u + p.small_delta * 3 / 2, p.small_delta, p.small_delta / 2⟩

/-- `BaseModel._calculate_asset_values`. -/
def calculate_asset_values (p : Params) : Assets :=
  ⟨p.B - (p.delta + 3 / 2 * p.small_delta - p.K),
   p.B - (3 / 2 * p.small_delta - p.K),
   p.B - (p.delta - p.K),
   p.B - (1 / 2 * p.small_delta - p.K)⟩

end BaseModel

/-- `BaseModel.get_optimal_choice`, abstracted over the cached threshold tables
(the bargaining-power model inherits this method unchanged and only swaps the
tables computed at construction). -/
def optimal_choice_from (c : CopyingFixedCosts) (a : Assets) (A F : ℚ) : Choice :=
  if c.FYNc ≤ F ∧ F ≤ c.FYNs ∧ A < a.Abar_s then
    ⟨.complement, .refrain, .success⟩
  else if F ≤ c.FYNc ∧ A < a.Abar_s then
    ⟨.indifferent, .copy, .failure⟩
  else
    ⟨.substitute, if F ≤ c.FYYs then .copy else .refrain, .success⟩

/-- `BaseModel.get_optimal_choice` on the base model's own threshold tables. -/
def BaseModel.get_optimal_choice (p : Params) (A F : ℚ) : Choice :=
  optimal_choice_from (BaseModel.calculate_copying_fixed_costs_values p)
    (BaseModel.calculate_asset_values p) A F

/-- `BaseModel.__init__`: construction succeeds (returning the cached tables)
exactly when the assertions hold, and fails otherwise. -/
def BaseModel.init (p : Params) :
    Option (CopyingFixedCosts × Assets × (MarketConfig → Payoff)) :=
  if BaseModel.valid p then
    some (BaseModel.calculate_copying_fixed_costs_values p,
          BaseModel.calculate_asset_values p,
          BaseModel.calculate_payoffs p)
  else none

namespace BargainingPowerModel

/-- The assertions of `BargainingPowerModel.__init__`: `0 < beta < 1` plus the
base-model assertions. -/
def valid (p : BParams) : Prop :=
  0 < p.beta ∧ p.beta < 1 ∧ BaseModel.valid p.toParams

instance (p : BParams) : Decidable (valid p) := by
  unfold valid
  infer_instance

/-- `BargainingPowerModel._calculate_payoffs`: the base table with the
`pi(I)`/`pi(E)` entries of `basic`, `E(C)` and `I(C)E(C)` overridden. -/
def calculate_payoffs (p : BParams) : MarketConfig → Payoff
  | .basic => ⟨p.u + p.small_delta * p.beta, p.small_delta * (1 - p.beta),
               (BaseModel.calculate_payoffs p.toParams .basic).CS,
               (BaseModel.calculate_payoffs p.toParams .basic).W⟩
  | .EC => ⟨p.u + 2 * p.small_delta * p.beta, 2 * p.small_delta * (1 - p.beta),
            (BaseModel.calculate_payoffs p.toParams .EC).CS,
            (BaseModel.calculate_payoffs p.toParams .EC).W⟩
  | .ICEC => ⟨p.u + p.small_delta * (1 + p.beta), p.small_delta * (1 - p.beta),
              (BaseModel.calculate_payoffs p.toParams .ICEC).CS,
              (BaseModel.calculate_payoffs p.toParams .ICEC).W⟩
  | c => BaseModel.calculate_payoffs p.toParams c

/-- `BargainingPowerModel._calculate_copying_fixed_costs_values`. -/
def calculate_copying_fixed_costs_values (p : BParams) : CopyingFixedCosts :=
  ⟨p.small_delta * (1 - p.beta),
   p.u + p.small_delta * (2 - p.beta),
   2 * p.small_delta * (1 - p.beta),
   p.small_delta * (2 - 3 * p.beta)⟩

/-- `BargainingPowerModel._calculate_asset_values`. -/
def calculate_asset_values (p : BParams) : Assets :=
  ⟨p.K + p.B - p.delta - p.small_delta * (2 - p.beta),
   p.K + p.B - 3 * p.small_delta * (1 - p.beta),
   p.K + p.B - p.delta,
   p.K + p.B - p.small_delta * (1 - p.beta)⟩

end BargainingPowerModel

/-- `get_optimal_choice` of the bargaining-power model: the inherited base
method evaluated on the bargaining-power threshold tables. -/
def BargainingPowerModel.get_optimal_choice (p : BParams) (A F : ℚ) : Choice :=
  optimal_choice_from (BargainingPowerModel.calculate_copying_fixed_costs_values p)
    (BargainingPowerModel.calculate_asset_values p) A F

/-- `UnobservableModel.get_optimal_choice`: the inherited result, with any
complement outcome replaced by substitute/copy/failure. -/
def UnobservableModel.get_optimal_choice (p : BParams) (A F : ℚ) : Choice :=
  let result := BargainingPowerModel.get_optimal_choice p A F
  if result.entrant = Entrant.complement then
    ⟨.substitute, .copy, .failure⟩
  else result

/-- The copying fixed costs table of the acquisition model: the
bargaining-power values plus the keys `F(ACQ)s` and `F(ACQ)c`. -/
structure AcqCopyingFixedCosts extends CopyingFixedCosts where
  FACQs : ℚ
  FACQc : ℚ
deriving DecidableEq

namespace AcquisitionModel

/-- `AcquisitionModel._calculate_copying_fixed_costs_values` (without its
trailing assertion, which is `AcquisitionModel.assertion`). -/
def calculate_copying_fixed_costs_values (p : BParams) : AcqCopyingFixedCosts :=
  ⟨BargainingPowerModel.calculate_copying_fixed_costs_values p,
   (p.u + p.delta - p.K) / 2 + p.small_delta * (2 - p.beta),
   p.small_delta * (5/2 - 3 * p.beta) - p.K / 2⟩

/-- The assertion at the end of
`AcquisitionModel._calculate_copying_fixed_costs_values`:
`F(ACQ)c` is smaller than `F(YY)c` or equal to it within `TOLERANCE`. -/
def assertion (p : BParams) : Prop :=
  |(calculate_copying_fixed_costs_values p).FACQc -
      (calculate_copying_fixed_costs_values p).FYYc| < BaseModel.TOLERANCE ∨
    (calculate_copying_fixed_costs_values p).FACQc <
      (calculate_copying_fixed_costs_values p).FYYc

/-- All assertions run by `AcquisitionModel.__init__`: `delta < u`, the
bargaining-power assertions, and the `F(ACQ)c ≤ F(YY)c` assertion. -/
def valid (p : BParams) : Prop :=
  p.delta < p.u ∧ BargainingPowerModel.valid p ∧ assertion p

instance (p : BParams) : Decidable (valid p) := by
  unfold valid assertion
  infer_instance

/-- `AcquisitionModel.get_optimal_choice`. -/
def get_optimal_choice (p : BParams) (A F : ℚ) : AcqChoice :=
  let c := calculate_copying_fixed_costs_values p
  let a := BargainingPowerModel.calculate_asset_values p
  if c.FACQc ≤ F ∧ F ≤ c.FACQs ∧ A < a.Abar_s then
    ⟨.complement, .refrain, .success, .apart⟩
  else if F < c.FACQc ∧ A < a.Abar_s then
    ⟨if p.delta < p.small_delta then .complement else .substitute,
     .copy, .success, .merged⟩
  else
    ⟨.substitute, if F ≤ c.FYYc then .copy else .refrain, .success, .merged⟩

/-- `AcquisitionModel.__init__`: construction succeeds exactly when all the
assertions hold. -/
def init (p : BParams) :
    Option (AcqCopyingFixedCosts × Assets × (MarketConfig → Payoff)) :=
  if valid p then
    some (calculate_copying_fixed_costs_values p,
          BargainingPowerModel.calculate_asset_values p,
          BargainingPowerModel.calculate_payoffs p)
  else none

end AcquisitionModel

/-- In any result of the shared decision skeleton, the entrant choice is
complement only in the first ("kill zone") branch, whose full result is
complement/refrain/success. -/
theorem optimal_choice_from_entrant_complement (c : CopyingFixedCosts) (a : Assets)
    (A F : ℚ) (h : (optimal_choice_from c a A F).entrant = Entrant.complement) :
    optimal_choice_from c a A F = ⟨.complement, .refrain, .success⟩ := by
  unfold optimal_choice_from at h ⊢
  split_ifs at h ⊢ <;> simp_all

/-- Claim C7: for every valid parameter set, the base model's asset thresholds are
A_s = B - (delta + 3*small_delta/2 - K), A_c = B - (3*small_delta/2 - K),
A-s = B - (delta - K), A-c = B - (small_delta/2 - K), and its copying fixed-cost
thresholds are F(YY)s = small_delta/2, F(YN)s = u + 3*small_delta/2,
F(YY)c = small_delta, F(YN)c = small_delta/2. -/
theorem C7_base_threshold_formulas (p : Params) (h : BaseModel.valid p) :
    (BaseModel.calculate_asset_values p).A_s = p.B - (p.delta + 3 * p.small_delta / 2 - p.K) ∧
    (BaseModel.calculate_asset_values p).A_c = p.B - (3 * p.small_delta / 2 - p.K) ∧
    (BaseModel.calculate_asset_values p).Abar_s = p.B - (p.delta - p.K) ∧
    (BaseModel.calculate_asset_values p).Abar_c = p.B - (p.small_delta / 2 - p.K) ∧
    (BaseModel.calculate_copying_fixed_costs_values p).FYYs = p.small_delta / 2 ∧
    (BaseModel.calculate_copying_fixed_costs_values p).FYNs = p.u + 3 * p.small_delta / 2 ∧
    (BaseModel.calculate_copying_fixed_costs_values p).FYYc = p.small_delta ∧
    (BaseModel.calculate_copying_fixed_costs_values p).FYNc = p.small_delta / 2 := by
  refine ⟨?_, ?_, ?_, ?_, ?_, ?_, ?_, ?_⟩ <;>
    simp only [BaseModel.calculate_asset_values, BaseModel.calculate_copying_fixed_costs_values] <;>
    ring

/-- Witness for C7 at the default parameters. -/
theorem C7_base_threshold_formulas_witness :
    (BaseModel.calculate_copying_fixed_costs_values defaultParams).FYNs =
      defaultParams.u + 3 * defaultParams.small_delta / 2 :=
  (C7_base_threshold_formulas defaultParams
    (of_decide_eq_true (by with_unfolding_all rfl))).2.2.2.2.2.1

/-- Claim C10: in the base model the thresholds F(YY)s and F(YN)c coincide (both
equal small_delta/2), so the lower kill-zone boundary equals the copy/refrain
boundary of the substitute branch. -/
theorem C10_FYYs_eq_FYNc (p : Params) (h : BaseModel.valid p) :
    (BaseModel.calculate_copying_fixed_costs_values p).FYYs =
      (BaseModel.calculate_copying_fixed_costs_values p).FYNc ∧
    (BaseModel.calculate_copying_fixed_costs_values p).FYYs = p.small_delta / 2 ∧
    (BaseModel.calculate_copying_fixed_costs_values p).FYNc = p.small_delta / 2 :=
  ⟨rfl, rfl, rfl⟩

/-- Witness for C10 at the default parameters. -/
theorem C10_FYYs_eq_FYNc_witness :
    (BaseModel.calculate_copying_fixed_costs_values defaultParams).FYYs =
      (BaseModel.calculate_copying_fixed_costs_values defaultParams).FYNc :=
  (C10_FYYs_eq_FYNc defaultParams (of_decide_eq_true (by with_unfolding_all rfl))).1

/-- Claim C2: in every market configuration the welfare entry W of the payoff
table equals pi(I) + pi(E) + CS, both in the base model (for every valid
parameter set) and in the bargaining-power model (for every valid parameter set
with beta in (0,1)). -/
theorem C2_welfare_is_sum (p : Params) (hp : BaseModel.valid p) (bp : BParams)
    (hbp : BargainingPowerModel.valid bp) (c : MarketConfig) :
    (BaseModel.calculate_payoffs p c).W =
      (BaseModel.calculate_payoffs p c).piI + (BaseModel.calculate_payoffs p c).piE +
        (BaseModel.calculate_payoffs p c).CS ∧
    (BargainingPowerModel.calculate_payoffs bp c).W =
      (BargainingPowerModel.calculate_payoffs bp c).piI +
        (BargainingPowerModel.calculate_payoffs bp c).piE +
        (BargainingPowerModel.calculate_payoffs bp c).CS := by
  cases c <;> constructor <;>
    simp only [BaseModel.calculate_payoffs, BargainingPowerModel.calculate_payoffs] <;>
    ring

/-- Witness for C2 at the default parameters, basic configuration. -/
theorem C2_welfare_is_sum_witness :
    (BargainingPowerModel.calculate_payoffs defaultBParams .basic).W =
      (BargainingPowerModel.calculate_payoffs defaultBParams .basic).piI +
        (BargainingPowerModel.calculate_payoffs defaultBParams .basic).piE +
        (BargainingPowerModel.calculate_payoffs defaultBParams .basic).CS :=
  (C2_welfare_is_sum defaultParams (of_decide_eq_true (by with_unfolding_all rfl))
    defaultBParams (of_decide_eq_true (by with_unfolding_all rfl)) .basic).2

/-- Claim C8: for every valid parameter set and beta in (0,1), the
bargaining-power payoff table keeps CS and W of every configuration equal to the
base model's, keeps the rows I(C), E(P) and I(C)E(P) entirely equal to the base
model's, and keeps the sum pi(I) + pi(E) of every configuration (in particular
of the three overridden rows basic, E(C), I(C)E(C)) equal to the base model's:
the beta/(1-beta) split is redistribution only. -/
theorem C8_bargaining_redistribution_only (p : BParams)
    (h : BargainingPowerModel.valid p) (c : MarketConfig) :
    (BargainingPowerModel.calculate_payoffs p c).CS =
      (BaseModel.calculate_payoffs p.toParams c).CS ∧
    (BargainingPowerModel.calculate_payoffs p c).W =
      (BaseModel.calculate_payoffs p.toParams c).W ∧
    (c = .IC ∨ c = .EP ∨ c = .ICEP →
      BargainingPowerModel.calculate_payoffs p c = BaseModel.calculate_payoffs p.toParams c) ∧
    (BargainingPowerModel.calculate_payoffs p c).piI +
        (BargainingPowerModel.calculate_payoffs p c).piE =
      (BaseModel.calculate_payoffs p.toParams c).piI +
        (BaseModel.calculate_payoffs p.toParams c).piE := by
  cases c <;> refine ⟨?_, ?_, ?_, ?_⟩ <;>
    first
      | rfl
      | (intro hc; first | rfl | simp at hc)
      | (simp only [BaseModel.calculate_payoffs, BargainingPowerModel.calculate_payoffs]; ring)

/-- Witness for C8 at the default parameters, I(C)E(C) configuration. -/
theorem C8_bargaining_redistribution_only_witness :
    (BargainingPowerModel.calculate_payoffs defaultBParams .ICEC).piI +
        (BargainingPowerModel.calculate_payoffs defaultBParams .ICEC).piE =
      (BaseModel.calculate_payoffs defaultBParams.toParams .ICEC).piI +
        (BaseModel.calculate_payoffs defaultBParams.toParams .ICEC).piE :=
  (C8_bargaining_redistribution_only defaultBParams
    (of_decide_eq_true (by with_unfolding_all rfl)) .ICEC).2.2.2
/-- Claim C9: with beta = 1/2 the bargaining-power model coincides with the base
model on all outputs: asset thresholds, copying fixed-cost thresholds, the
payoff table, and the optimal choice at every pair (A, F). -/
theorem C9_beta_half_is_base (p : Params) (h : BaseModel.valid p)
    (c : MarketConfig) (A F : ℚ) :
    BargainingPowerModel.calculate_asset_values ⟨p, 1/2⟩ = BaseModel.calculate_asset_values p ∧
    BargainingPowerModel.calculate_copying_fixed_costs_values ⟨p, 1/2⟩ =
      BaseModel.calculate_copying_fixed_costs_values p ∧
    BargainingPowerModel.calculate_payoffs ⟨p, 1/2⟩ c = BaseModel.calculate_payoffs p c ∧
    BargainingPowerModel.get_optimal_choice ⟨p, 1/2⟩ A F = BaseModel.get_optimal_choice p A F := by
  have ha : BargainingPowerModel.calculate_asset_values ⟨p, 1/2⟩ =
      BaseModel.calculate_asset_values p := by
    simp only [BargainingPowerModel.calculate_asset_values, BaseModel.calculate_asset_values,
      Assets.mk.injEq]
    refine ⟨by ring, by ring, by ring, by ring⟩
  have hc : BargainingPowerModel.calculate_copying_fixed_costs_values ⟨p, 1/2⟩ =
      BaseModel.calculate_copying_fixed_costs_values p := by
    simp only [BargainingPowerModel.calculate_copying_fixed_costs_values,
      BaseModel.calculate_copying_fixed_costs_values, CopyingFixedCosts.mk.injEq]
    refine ⟨by ring, by ring, by ring, by ring⟩
  refine ⟨ha, hc, ?_, ?_⟩
  · cases c <;>
      simp only [BargainingPowerModel.calculate_payoffs, BaseModel.calculate_payoffs,
        Payoff.mk.injEq] <;>
      refine ⟨by ring, by ring, by ring, by ring⟩
  · unfold BargainingPowerModel.get_optimal_choice BaseModel.get_optimal_choice
    rw [ha, hc]

/-- Witness for C9 at the default parameters, point (A, F) = (0, 0). -/
theorem C9_beta_half_is_base_witness :
    BargainingPowerModel.get_optimal_choice ⟨defaultParams, 1/2⟩ 0 0 =
      BaseModel.get_optimal_choice defaultParams 0 0 :=
  (C9_beta_half_is_base defaultParams (of_decide_eq_true (by with_unfolding_all rfl))
    .basic 0 0).2.2.2

/-- Claim C1: for the base model with valid parameters, get_optimal_choice
evaluates its three branches in precedence order with first match winning:
(1) F(YN)c ≤ F ≤ F(YN)s and A < A-s gives complement/refrain/success (kill
zone); (2) otherwise F ≤ F(YN)c and A < A-s gives indifferent/copy/failure;
(3) otherwise the entrant substitutes, development succeeds and the incumbent
copies exactly when F ≤ F(YY)s; in particular at the boundary point A = A-s,
F = F(YY)s the result is substitute/copy/success, not the kill zone. -/
theorem C1_base_decision_branches (p : Params) (h : BaseModel.valid p) (A F : ℚ) :
    ((BaseModel.calculate_copying_fixed_costs_values p).FYNc ≤ F ∧
        F ≤ (BaseModel.calculate_copying_fixed_costs_values p).FYNs ∧
        A < (BaseModel.calculate_asset_values p).Abar_s →
      BaseModel.get_optimal_choice p A F = ⟨.complement, .refrain, .success⟩) ∧
    (¬ ((BaseModel.calculate_copying_fixed_costs_values p).FYNc ≤ F ∧
          F ≤ (BaseModel.calculate_copying_fixed_costs_values p).FYNs ∧
          A < (BaseModel.calculate_asset_values p).Abar_s) →
      F ≤ (BaseModel.calculate_copying_fixed_costs_values p).FYNc ∧
        A < (BaseModel.calculate_asset_values p).Abar_s →
      BaseModel.get_optimal_choice p A F = ⟨.indifferent, .copy, .failure⟩) ∧
    (¬ ((BaseModel.calculate_copying_fixed_costs_values p).FYNc ≤ F ∧
          F ≤ (BaseModel.calculate_copying_fixed_costs_values p).FYNs ∧
          A < (BaseModel.calculate_asset_values p).Abar_s) →
      ¬ (F ≤ (BaseModel.calculate_copying_fixed_costs_values p).FYNc ∧
          A < (BaseModel.calculate_asset_values p).Abar_s) →
      (BaseModel.get_optimal_choice p A F).entrant = Entrant.substitute ∧
        (BaseModel.get_optimal_choice p A F).development = Development.success ∧
        ((BaseModel.get_optimal_choice p A F).incumbent = Incumbent.copy ↔
          F ≤ (BaseModel.calculate_copying_fixed_costs_values p).FYYs)) ∧
    BaseModel.get_optimal_choice p (BaseModel.calculate_asset_values p).Abar_s
        (BaseModel.calculate_copying_fixed_costs_values p).FYYs =
      ⟨.substitute, .copy, .success⟩ := by
  unfold BaseModel.get_optimal_choice optimal_choice_from
  refine ⟨?_, ?_, ?_, ?_⟩
  · intro h1
    rw [if_pos h1]
  · intro h1 h2
    rw [if_neg h1, if_pos h2]
  · intro h1 h2
    rw [if_neg h1, if_neg h2]
    by_cases hF : F ≤ (BaseModel.calculate_copying_fixed_costs_values p).FYYs <;>
      simp [hF]
  · rw [if_neg (fun hcontra => lt_irrefl _ hcontra.2.2),
      if_neg (fun hcontra => lt_irrefl _ hcontra.2), if_pos le_rfl]

/-- Witness for C1 at the default parameters: the boundary point
(A, F) = (A-s, F(YY)s) resolves to substitute/copy/success. -/
theorem C1_base_decision_branches_witness :
    BaseModel.get_optimal_choice defaultParams
        (BaseModel.calculate_asset_values defaultParams).Abar_s
        (BaseModel.calculate_copying_fixed_costs_values defaultParams).FYYs =
      ⟨.substitute, .copy, .success⟩ :=
  (C1_base_decision_branches defaultParams
    (of_decide_eq_true (by with_unfolding_all rfl)) 0 0).2.2.2

/-- Claim C6: for every valid parameter set, whenever the bargaining-power
model returns the kill-zone outcome complement/refrain/success at (A, F), the
unobservable model with the same parameters returns substitute/copy/failure
there; at every other point the two models return the same result (the
threshold tables are unchanged). -/
theorem C6_unobservable_collapses_kill_zone (p : BParams)
    (h : BargainingPowerModel.valid p) (A F : ℚ) :
    (BargainingPowerModel.get_optimal_choice p A F =
        ⟨.complement, .refrain, .success⟩ →
      UnobservableModel.get_optimal_choice p A F = ⟨.substitute, .copy, .failure⟩) ∧
    (BargainingPowerModel.get_optimal_choice p A F ≠
        ⟨.complement, .refrain, .success⟩ →
      UnobservableModel.get_optimal_choice p A F =
        BargainingPowerModel.get_optimal_choice p A F) := by
  constructor
  · intro hkz
    simp only [UnobservableModel.get_optimal_choice, hkz]
    rfl
  · intro hne
    simp only [UnobservableModel.get_optimal_choice]
    by_cases he : (BargainingPowerModel.get_optimal_choice p A F).entrant = Entrant.complement
    · exact absurd (optimal_choice_from_entrant_complement _ _ _ _ he) hne
    · rw [if_neg he]

/-- Witness for C6 at the default parameters: the point (A, F) = (0, 2/5) lies
in the bargaining-power kill zone, and the unobservable model maps it to
substitute/copy/failure. -/
theorem C6_unobservable_collapses_kill_zone_witness :
    UnobservableModel.get_optimal_choice defaultBParams 0 (2/5) =
      ⟨.substitute, .copy, .failure⟩ :=
  (C6_unobservable_collapses_kill_zone defaultBParams
    (of_decide_eq_true (by with_unfolding_all rfl)) 0 (2/5)).1
    (of_decide_eq_true (by with_unfolding_all rfl))

/-- Claim C4: constructing a base model with small_delta=0.2 and delta=0.51
(violating A1b) fails, constructing one with K=0.3 and the default
small_delta=0.5 (violating A2) fails, both at construction time; and on models
that construct successfully, get_optimal_choice never fails: it totally returns
one of the four possible outcome triples at every pair (A, F). -/
theorem C4_construction_fails_fast (p : Params) (hp : (BaseModel.init p).isSome)
    (A F : ℚ) :
    BaseModel.init ⟨1, 1/2, 1/5, 51/100, 1/5⟩ = none ∧
    BaseModel.init ⟨1, 1/2, 1/2, 51/100, 3/10⟩ = none ∧
    (BaseModel.get_optimal_choice p A F = ⟨.complement, .refrain, .success⟩ ∨
      BaseModel.get_optimal_choice p A F = ⟨.indifferent, .copy, .failure⟩ ∨
      BaseModel.get_optimal_choice p A F = ⟨.substitute, .copy, .success⟩ ∨
      BaseModel.get_optimal_choice p A F = ⟨.substitute, .refrain, .success⟩) := by
  refine ⟨?_, ?_, ?_⟩
  · have hbad : ¬ BaseModel.valid ⟨1, 1/2, 1/5, 51/100, 1/5⟩ :=
      of_decide_eq_true (by with_unfolding_all rfl)
    simp only [BaseModel.init, if_neg hbad]
  · have hbad : ¬ BaseModel.valid ⟨1, 1/2, 1/2, 51/100, 3/10⟩ :=
      of_decide_eq_true (by with_unfolding_all rfl)
    simp only [BaseModel.init, if_neg hbad]
  · unfold BaseModel.get_optimal_choice optimal_choice_from
    split_ifs <;> simp

/-- Witness for C4 at the default parameters, point (A, F) = (0, 0). -/
theorem C4_construction_fails_fast_witness :
    BaseModel.init ⟨1, 1/2, 1/5, 51/100, 1/5⟩ = none ∧
    BaseModel.init ⟨1, 1/2, 1/2, 51/100, 3/10⟩ = none :=
  ⟨(C4_construction_fails_fast defaultParams
      (of_decide_eq_true (by with_unfolding_all rfl)) 0 0).1,
   (C4_construction_fails_fast defaultParams
      (of_decide_eq_true (by with_unfolding_all rfl)) 0 0).2.1⟩

/-- Claim C5: every successfully constructed acquisition model satisfies
F(ACQ)c ≤ F(YY)c up to the model's tolerance, where
F(ACQ)c = small_delta*(2.5 - 3*beta) - K/2 and
F(YY)c = 2*small_delta*(1 - beta); constructing an acquisition model with
beta = 0.2 and the other parameters at their defaults violates this ordering and
fails at construction. -/
theorem C5_acq_copying_cost_constraint (p : BParams) (h : AcquisitionModel.valid p) :
    ((AcquisitionModel.calculate_copying_fixed_costs_values p).FACQc <
        (AcquisitionModel.calculate_copying_fixed_costs_values p).FYYc ∨
      |(AcquisitionModel.calculate_copying_fixed_costs_values p).FACQc -
          (AcquisitionModel.calculate_copying_fixed_costs_values p).FYYc| <
        BaseModel.TOLERANCE) ∧
    (AcquisitionModel.calculate_copying_fixed_costs_values p).FACQc =
      p.small_delta * (5/2 - 3 * p.beta) - p.K / 2 ∧
    (AcquisitionModel.calculate_copying_fixed_costs_values p).FYYc =
      2 * p.small_delta * (1 - p.beta) ∧
    AcquisitionModel.init ⟨⟨1, 1/2, 1/2, 51/100, 1/5⟩, 1/5⟩ = none := by
  refine ⟨h.2.2.symm, rfl, rfl, ?_⟩
  have hbad : ¬ AcquisitionModel.valid ⟨⟨1, 1/2, 1/2, 51/100, 1/5⟩, 1/5⟩ :=
    of_decide_eq_true (by with_unfolding_all rfl)
  simp only [AcquisitionModel.init, if_neg hbad]

/-- Witness for C5 at the default parameters. -/
theorem C5_acq_copying_cost_constraint_witness :
    AcquisitionModel.init ⟨⟨1, 1/2, 1/2, 51/100, 1/5⟩, 1/5⟩ = none :=
  (C5_acq_copying_cost_constraint defaultBParams
    (of_decide_eq_true (by with_unfolding_all rfl))).2.2.2

/-- Counterexample to claim C3: at the default acquisition-model parameters the
point A = 0, F = 3/10 satisfies F ≤ F(ACQ)c and A < A-s, yet get_optimal_choice
returns entrant=substitute, incumbent=copy, development=success,
acquisition=merged — not entrant=indifferent with development=failure as the
claim states. -/
theorem C3_counterexample :
    (3/10 : ℚ) ≤ (AcquisitionModel.calculate_copying_fixed_costs_values defaultBParams).FACQc ∧
    (0 : ℚ) < (BargainingPowerModel.calculate_asset_values defaultBParams).Abar_s ∧
    AcquisitionModel.get_optimal_choice defaultBParams 0 (3/10) =
      ⟨.substitute, .copy, .success, .merged⟩ ∧
    (AcquisitionModel.get_optimal_choice defaultBParams 0 (3/10)).entrant ≠
      Entrant.indifferent ∧
    (AcquisitionModel.get_optimal_choice defaultBParams 0 (3/10)).development ≠
      Development.failure :=
  of_decide_eq_true (by with_unfolding_all rfl)

/-- Claim C3 as amended: the acquisition model's get_optimal_choice is the base
three-branch skeleton with F(ACQ)c/F(ACQ)s substituted for F(YN)c/F(YN)s plus
an added acquisition output field, except that the second branch requires F
strictly below F(ACQ)c (with A < A-s) and returns incumbent=copy,
development=success, acquisition=merged with entrant=complement when
delta < small_delta and entrant=substitute otherwise (not
indifferent/copy/failure), and in the remaining (substitute) branch the
incumbent copies if and only if F ≤ F(YY)c (not F(YY)s). -/
theorem C3_amended_acq_decision_branches (p : BParams)
    (h : AcquisitionModel.valid p) (A F : ℚ) :
    ((AcquisitionModel.calculate_copying_fixed_costs_values p).FACQc ≤ F ∧
        F ≤ (AcquisitionModel.calculate_copying_fixed_costs_values p).FACQs ∧
        A < (BargainingPowerModel.calculate_asset_values p).Abar_s →
      AcquisitionModel.get_optimal_choice p A F =
        ⟨.complement, .refrain, .success, .apart⟩) ∧
    (¬ ((AcquisitionModel.calculate_copying_fixed_costs_values p).FACQc ≤ F ∧
          F ≤ (AcquisitionModel.calculate_copying_fixed_costs_values p).FACQs ∧
          A < (BargainingPowerModel.calculate_asset_values p).Abar_s) →
      F < (AcquisitionModel.calculate_copying_fixed_costs_values p).FACQc ∧
        A < (BargainingPowerModel.calculate_asset_values p).Abar_s →
      AcquisitionModel.get_optimal_choice p A F =
        ⟨if p.delta < p.small_delta then .complement else .substitute,
         .copy, .success, .merged⟩) ∧
    (¬ ((AcquisitionModel.calculate_copying_fixed_costs_values p).FACQc ≤ F ∧
          F ≤ (AcquisitionModel.calculate_copying_fixed_costs_values p).FACQs ∧
          A < (BargainingPowerModel.calculate_asset_values p).Abar_s) →
      ¬ (F < (AcquisitionModel.calculate_copying_fixed_costs_values p).FACQc ∧
          A < (BargainingPowerModel.calculate_asset_values p).Abar_s) →
      AcquisitionModel.get_optimal_choice p A F =
        ⟨.substitute,
         if F ≤ (AcquisitionModel.calculate_copying_fixed_costs_values p).FYYc then
           Incumbent.copy
         else Incumbent.refrain,
         .success, .merged⟩ ∧
      ((AcquisitionModel.get_optimal_choice p A F).incumbent = Incumbent.copy ↔
        F ≤ (AcquisitionModel.calculate_copying_fixed_costs_values p).FYYc)) := by
  unfold AcquisitionModel.get_optimal_choice
  refine ⟨?_, ?_, ?_⟩
  · intro h1
    rw [if_pos h1]
  · intro h1 h2
    rw [if_neg h1, if_pos h2]
  · intro h1 h2
    rw [if_neg h1, if_neg h2]
    by_cases hF : F ≤ (AcquisitionModel.calculate_copying_fixed_costs_values p).FYYc <;>
      simp [hF]

/-- Witness for C3 as amended, at the default parameters: the point
(A, F) = (0, 1/2) lies in the first (kill zone) branch. -/
theorem C3_amended_acq_decision_branches_witness :
    AcquisitionModel.get_optimal_choice defaultBParams 0 (1/2) =
      ⟨.complement, .refrain, .success, .apart⟩ :=
  (C3_amended_acq_decision_branches defaultBParams
    (of_decide_eq_true (by with_unfolding_all rfl)) 0 (1/2)).1
    (of_decide_eq_true (by with_unfolding_all rfl))

end ShelegiaMotta
